import Mathlib

/-!
# mcp-server-scanner: the `listtools` package

A shallow embedding of `pkg/listtools/ListTools.go` and the properties of its
stream reader, endpoint discovery, message router, fetch orchestration,
response parser and close operation.

Go strings are modelled as lists of Unicode characters (valid UTF-8 text);
errors are modelled by their message text.
-/

namespace Listtools

/-- Text: a Go `string` holding valid UTF-8. -/
abbrev Str := List Char

/-! ## The parts of the Go standard library the package calls -/

/-- The predicate `unicode.IsSpace`: the Latin-1 spaces `\t \n \v \f \r`, space,
U+0085, U+00A0, and the other code points with the White_Space property. -/
def isSpace (c : Char) : Bool :=
  let n := c.toNat
  (9 ≤ n && n ≤ 13) || n == 32 || n == 0x85 || n == 0xA0 || n == 0x1680 ||
    (0x2000 ≤ n && n ≤ 0x200A) || n == 0x2028 || n == 0x2029 || n == 0x202F ||
    n == 0x205F || n == 0x3000

/-- The function `strings.TrimSpace`: leading and trailing white space removed. -/
def TrimSpace (s : Str) : Str :=
  ((s.dropWhile isSpace).reverse.dropWhile isSpace).reverse

/-- The function `strings.HasPrefix`. -/
def HasPrefix (s pre : Str) : Bool := pre.isPrefixOf s

/-- The function `strings.TrimPrefix`: `s` without the leading `pre`, or `s`
itself when it does not start with `pre`. -/
def TrimPrefix (s pre : Str) : Str :=
  if HasPrefix s pre then s.drop pre.length else s

/-- The function `strings.Contains`: `sub` occurs somewhere in `s`. -/
def Contains : Str → Str → Bool
  | [], sub => sub.isEmpty
  | c :: cs, sub => sub.isPrefixOf (c :: cs) || Contains cs sub

/-- The method `bufio.Reader.ReadString` with delimiter `\n` on the unread
input: the line up to and including the first newline and what follows it, or
`none` when the input ends before a newline (the call returns `io.EOF`). -/
def ReadString : Str → Option (Str × Str)
  | [] => none
  | c :: cs =>
    if c = '\n' then some (['\n'], cs)
    else match ReadString cs with
      | none => none
      | some (line, rest) => some (c :: line, rest)

/-! ## The stream reader: `processSSEStream` -/

/-- The local variables of `processSSEStream`: the contents of `dataBuffer`
and the flag `inMessage`. -/
structure SSEState where
  dataBuffer : Str
  inMessage : Bool
deriving DecidableEq, Repr

/-- The state at loop entry: an empty buffer, `inMessage` false. -/
def SSEState.init : SSEState := ⟨[], false⟩

/-- One pass of the loop body of `processSSEStream` after a successful read of
`line`: the next state and the messages sent on `c.messages` (none or one). -/
def sseLine (st : SSEState) (line : Str) : SSEState × List Str :=
  let line := TrimSpace line
  if line = [] then
    if st.inMessage && decide (st.dataBuffer.length > 0) then
      (⟨[], false⟩, [st.dataBuffer])
    else (st, [])
  else if HasPrefix line [':'] then (st, [])
  else if HasPrefix line ['d', 'a', 't', 'a', ':'] then
    let data := TrimSpace (TrimPrefix line ['d', 'a', 't', 'a', ':'])
    let buf :=
      if st.inMessage && decide (st.dataBuffer.length > 0) then st.dataBuffer ++ ['\n']
      else st.dataBuffer
    (⟨buf ++ data, true⟩, [])
  else (st, [])

/-- The loop of `processSSEStream`, run for at most `fuel` passes. Pass `i`
first polls the context (`ctxDone i`) and returns when it is done; it then
reads a line and returns on a read error; otherwise it handles the line. The
result is the sequence of messages sent on `c.messages`. -/
def sseLoop (ctxDone : Nat → Bool) : Nat → Nat → SSEState → Str → List Str
  | 0, _, _, _ => []
  | fuel + 1, i, st, body =>
    if ctxDone i then []
    else match ReadString body with
      | none => []
      | some (line, rest) =>
        (sseLine st line).2 ++ sseLoop ctxDone fuel (i + 1) (sseLine st line).1 rest

/-- The method `Client.processSSEStream` on a response body: the messages it
sends on `c.messages`, in order, each send being taken by the router. Each pass
consumes at least one character, so `body.length + 1` passes reach the end of
the body. -/
def processSSEStream (ctxDone : Nat → Bool) (body : Str) : List Str :=
  sseLoop ctxDone (body.length + 1) 0 SSEState.init body

/-- A context that is never cancelled while the stream is read. -/
def ctxLive : Nat → Bool := fun _ => false

/-! ## Endpoint discovery: `parseMessagesEndpoint` -/

/-- The class `\s` of Go regular expressions: tab, newline, form feed, carriage
return and space. -/
def isReSpace (c : Char) : Bool :=
  c == '\t' || c == '\n' || c == '\x0c' || c == '\r' || c == ' '

/-- The text `/messages`, the literal part of the pattern. -/
def messagesLit : Str := ['/', 'm', 'e', 's', 's', 'a', 'g', 'e', 's']

/-- A match of the pattern `\/(messages[^\s]+)` starting at the first character
of `s`: the whole match and capture group 1. The greedy `[^\s]+` takes the
longest run of non-space characters and needs at least one. -/
def matchMessagesAt (s : Str) : Option (Str × Str) :=
  if HasPrefix s messagesLit then
    let run := (s.drop messagesLit.length).takeWhile (fun c => !isReSpace c)
    if run = [] then none else some (messagesLit ++ run, messagesLit.tail ++ run)
  else none

/-- The call `re.FindStringSubmatch(message)` for the pattern
`\/(messages[^\s]+)`: the leftmost match and its capture group 1, or `none`
when the pattern matches nowhere. -/
def FindStringSubmatch : Str → Option (Str × Str)
  | [] => none
  | c :: cs =>
    match matchMessagesAt (c :: cs) with
    | some m => some m
    | none => FindStringSubmatch cs

/-- The function `parseMessagesEndpoint`: the empty string when there is no
match, else `matches[1]`. -/
def parseMessagesEndpoint (message : Str) : Str :=
  match FindStringSubmatch message with
  | none => []
  | some m => m.2

/-! ## The client -/

/-- A Go channel made by `make`, as far as `Close` is concerned. -/
inductive Chan
  | active
  | closed
deriving DecidableEq, Repr

/-- The builtin `close(ch)`: closing a closed channel panics (`none`). -/
def closeChan : Chan → Option Chan
  | .active => some .closed
  | .closed => none

/-- The struct `Client` as `NewClient` makes it, without its HTTP client and
mutex: the two channel fields hold the state of their channels. -/
structure Client where
  baseURL : Str
  messagesEndpoint : Str
  messages : Chan
  toolsMessage : Chan
  closed : Bool
deriving DecidableEq, Repr

/-- The function `NewClient`. -/
def NewClient (baseURL : Str) : Client :=
  { baseURL := baseURL, messagesEndpoint := [], messages := .active,
    toolsMessage := .active, closed := false }

/-- The method `Client.Close`, run under its mutex: the state it leaves and the
number of channels it closed, or `none` when it panics. -/
def Client.Close (c : Client) : Option (Client × Nat) :=
  if !c.closed then
    match closeChan c.messages with
    | none => none
    | some m =>
      match closeChan c.toolsMessage with
      | none => none
      | some t => some ({ c with messages := m, toolsMessage := t, closed := true }, 2)
  else some (c, 0)

/-- A client state in which the channels are closed exactly when the `closed`
flag is set. `NewClient` gives such a state and only `Close` closes channels. -/
def Client.Consistent (c : Client) : Prop :=
  (c.closed = true ↔ c.messages = .closed) ∧ (c.closed = true ↔ c.toolsMessage = .closed)

/-- The session marker the router looks for. -/
def sessionMarker : Str := ['s', 'e', 's', 's', 'i', 'o', 'n']

/-- The fragment `"result":{"tools":` that marks a tools-list result. -/
def toolsMarker : Str := "\"result\":\x7b\"tools\":".toList

/-- What the router does with a message besides updating the client. -/
inductive RouterAction
  | nothing
  | deliver (message : Str)
  | panicked
deriving DecidableEq, Repr

/-- The router goroutine of `FetchToolsResponse` on one message received from
`client.messages`: it stores the parsed endpoint when the message contains
`session`, then sends the message on `client.toolsMessage` when it contains the
tools marker (a send on a closed channel panics). -/
def routerStep (c : Client) (message : Str) : Client × RouterAction :=
  let c1 := if Contains message sessionMarker then
      { c with messagesEndpoint := parseMessagesEndpoint message } else c
  (c1,
    if Contains message toolsMarker then
      (if c1.toolsMessage = .closed then .panicked else .deliver message)
    else .nothing)

/-! ## Outbound messages and the fetch orchestration -/

/-- The constant `Handshake1`. -/
def Handshake1 : Str :=
  ("\x7b\"method\":\"initialize\",\"params\":\x7b\"protocolVersion\":\"2024-11-05\"," ++
   "\"capabilities\":\x7b\"tools\":true,\"prompts\":false,\"resources\":true," ++
   "\"logging\":false,\"roots\":\x7b\"listChanged\":false\x7d\x7d," ++
   "\"clientInfo\":\x7b\"name\":\"cursor-vscode\",\"version\":\"1.0.0\"\x7d\x7d," ++
   "\"jsonrpc\":\"2.0\",\"id\":0\x7d").toList

/-- The constant `Handshake2`. -/
def Handshake2 : Str := "\x7b\"method\":\"notifications/initialized\",\"jsonrpc\":\"2.0\"\x7d".toList

/-- The constant `ListTools`. -/
def ListTools : Str := "\x7b\"method\":\"tools/list\",\"jsonrpc\":\"2.0\",\"id\":1\x7d".toList

/-- An HTTP request as the client builds it. -/
structure Request where
  method : Str
  url : Str
  contentType : Str
  body : Str
deriving DecidableEq, Repr

/-- What the foreground task selects in its last loop: a message received on
`client.toolsMessage`, or the context being done with error text `e`. -/
inductive WaitEvent
  | tools (message : Str)
  | ctxDone (e : Str)
deriving DecidableEq, Repr

/-- Everything outside the foreground task of `FetchToolsResponse`: the HTTP
layer and what the background tasks have done by the time the foreground task
looks. -/
structure FetchEnv where
  /-- The error of `http.NewRequestWithContext` for a URL, `none` for nil. -/
  newRequest : Str → Option Str
  /-- The GET of the stream: an error, or the status code and content type. -/
  httpGet : Str → Except Str (Nat × Str)
  /-- The shared variable `error` as read right after the router is started. -/
  errorAtCheck : Option Str
  /-- The field `client.messagesEndpoint` as the foreground task reads it the
  `n`-th time (the router writes it concurrently). -/
  endpointAt : Nat → Str
  /-- The error of the `n`-th POST, `none` for nil. -/
  httpDo : Nat → Request → Option Str
  /-- The `n`-th event selected while waiting for the tools message. -/
  waitEvent : Nat → WaitEvent

/-- The method `Client.InitiateConnection`: its error, `none` for nil. -/
def InitiateConnection (env : FetchEnv) (c : Client) : Option Str :=
  match env.newRequest (c.baseURL ++ "/sse".toList) with
  | some e => some ("failed to create request: ".toList ++ e)
  | none =>
    match env.httpGet (c.baseURL ++ "/sse".toList) with
    | .error e => some ("failed to send request: ".toList ++ e)
    | .ok (status, contentType) =>
      if status ≠ 200 then
        some ("unexpected status code: ".toList ++ (Nat.repr status).toList)
      else if !Contains contentType "text/event-stream".toList then
        some ("unexpected content type: ".toList ++ contentType ++
          ", expected text/event-stream".toList)
      else none

/-- How a call of `SendMessage` ends. -/
inductive SendResult
  | ok
  | err (e : Str)
  | panicked
deriving DecidableEq, Repr

/-- The request `SendMessage` posts: the URL is `baseURL`, a slash, and the
stored endpoint. -/
def sendRequest (c : Client) (message : Str) : Request :=
  { method := "POST".toList, url := c.baseURL ++ ['/'] ++ c.messagesEndpoint,
    contentType := "application/json".toList, body := message }

/-- The method `Client.SendMessage` as the `n`-th POST. The header of the
request is set before the error of `NewRequestWithContext` is looked at, so a
rejected URL (a nil request) panics. -/
def SendMessage (env : FetchEnv) (n : Nat) (c : Client) (message : Str) : SendResult :=
  match env.newRequest (sendRequest c message).url with
  | some _ => .panicked
  | none =>
    match env.httpDo n (sendRequest c message) with
    | some e => .err ("failed to send request: ".toList ++ e)
    | none => .ok

/-- How far a run of `FetchToolsResponse` has come. -/
inductive FetchOutcome
  | returned (response : Str) (err : Option Str)
  | panicked
  | running
deriving DecidableEq, Repr

/-- A run of `FetchToolsResponse`: the payloads passed to `SendMessage`, in
order, and the outcome. -/
structure FetchRun where
  sent : List Str
  outcome : FetchOutcome
deriving DecidableEq, Repr

/-- The polling loop of `FetchToolsResponse` from read `k` on, for at most
`fuel` passes: the index of the read that found the endpoint set. The loop has
no other exit. -/
def awaitEndpoint (endpointAt : Nat → Str) : Nat → Nat → Option Nat
  | 0, _ => none
  | fuel + 1, k =>
    if endpointAt k ≠ [] then some k else awaitEndpoint endpointAt fuel (k + 1)

/-- The last loop of `FetchToolsResponse` from event `k` on, for at most `fuel`
passes: an empty tools message is waited past. -/
def awaitTools (waitEvent : Nat → WaitEvent) : Nat → Nat → FetchOutcome
  | 0, _ => .running
  | fuel + 1, k =>
    match waitEvent k with
    | .tools m => if m = [] then awaitTools waitEvent fuel (k + 1) else .returned m none
    | .ctxDone e => .returned [] (some ("context deadline exceeded: ".toList ++ e))

/-- The `j`-th call of `SendMessage` in `FetchToolsResponse` when read `k` of
the endpoint ended the polling: read `k + 1` is the log line, read `k + 2 + j`
is the one of this call. -/
def sendAt (env : FetchEnv) (client : Client) (k j : Nat) (message : Str) : SendResult :=
  SendMessage env j { client with messagesEndpoint := env.endpointAt (k + 2 + j) } message

/-- The function `FetchToolsResponse`, its loops run for at most `fuel` passes
each. -/
def FetchToolsResponse (env : FetchEnv) (client : Client) (fuel : Nat) : FetchRun :=
  match InitiateConnection env client with
  | some e => ⟨[], .returned [] (some ("failed to initiate connection: ".toList ++ e))⟩
  | none =>
    match env.errorAtCheck with
    | some e => ⟨[], .returned [] (some e)⟩
    | none =>
      match awaitEndpoint env.endpointAt fuel 0 with
      | none => ⟨[], .running⟩
      | some k =>
        match sendAt env client k 0 Handshake1 with
        | .panicked => ⟨[Handshake1], .panicked⟩
        | .err e =>
          ⟨[Handshake1], .returned [] (some ("failed to send handshake1: ".toList ++ e))⟩
        | .ok =>
          match sendAt env client k 1 Handshake2 with
          | .panicked => ⟨[Handshake1, Handshake2], .panicked⟩
          | .err e =>
            ⟨[Handshake1, Handshake2],
              .returned [] (some ("failed to send handshake2: ".toList ++ e))⟩
          | .ok =>
            match sendAt env client k 2 ListTools with
            | .panicked => ⟨[Handshake1, Handshake2, ListTools], .panicked⟩
            | .err e =>
              ⟨[Handshake1, Handshake2, ListTools],
                .returned [] (some ("failed to send list_tools: ".toList ++ e))⟩
            | .ok => ⟨[Handshake1, Handshake2, ListTools], awaitTools env.waitEvent fuel 0⟩

/-- A server that opens the stream and accepts every POST, with endpoint reads
`endpointAt` and wait events `waitEvent`. -/
def serverEnv (endpointAt : Nat → Str) (waitEvent : Nat → WaitEvent) : FetchEnv :=
  { newRequest := fun _ => none
    httpGet := fun _ => .ok (200, "text/event-stream".toList)
    errorAtCheck := none
    endpointAt := endpointAt
    httpDo := fun _ _ => none
    waitEvent := waitEvent }

/-- A server that opens the stream and never sends a session message: the
endpoint stays empty, and the context is done at every wait. -/
def silentEnv : FetchEnv :=
  serverEnv (fun _ => []) (fun _ => .ctxDone "context deadline exceeded".toList)

/-! ## The response parser: `ParseToolsResponse` -/

/-- The struct `Tool`. -/
structure Tool where
  name : Str
  description : Str
deriving DecidableEq, Repr

/-- The local struct `ToolResponse`. A field the input leaves out holds its
zero value, the empty string; `inputSchema` holds the raw text of its value. -/
structure ToolResponse where
  name : Str
  description : Str
  inputSchema : Str
deriving DecidableEq, Repr

/-- The anonymous struct of the field `Result`. -/
structure Result where
  tools : List ToolResponse
deriving DecidableEq, Repr

/-- The local struct `Response`, the result envelope. -/
structure Response where
  result : Result
deriving DecidableEq, Repr

/-- The description given to a tool that has none. -/
def noDescription : Str := "No description provided".toList

/-- The function `ParseToolsResponse`. The decoder `json.Unmarshal` into a
`Response` is the parameter `unmarshal`: it gives the decoded envelope, or the
text of its error. -/
def ParseToolsResponse (unmarshal : Str → Except Str Response) (toolsResponse : Str) :
    Except Str (List Tool) :=
  match unmarshal toolsResponse with
  | .error err => .error ("failed to parse tools response: ".toList ++ err)
  | .ok response =>
    .ok (response.result.tools.foldl
      (fun tools t =>
        tools ++ [{ name := t.name,
                    description := if t.description = [] then noDescription else t.description }])
      [])

/-! ### A model of `encoding/json` for the envelope

The decoder used to run `ParseToolsResponse` on concrete inputs: the JSON
grammar as `json.Unmarshal` checks it, and the decoding of a value into a
`Response` (field names matched under case folding, `null` leaving a field as
it is, a later duplicate key overriding an earlier one, keys that name no field
skipped, an array element decoded into the record the list already holds at
its place, values nested more than 10000 deep refused). Error texts are
shortened to four: the end of the input, an invalid character, a value of the
wrong type, and the nesting limit; the text that names the character and the
place is left out. A place of the list beyond its length is taken to hold a
zero record. -/

/-- A JSON value; an object member also keeps the raw text of its value. -/
inductive JSON
  | null
  | bool (b : Bool)
  | number (raw : Str)
  | string (s : Str)
  | array (elems : List JSON)
  | object (members : List (Str × JSON × Str))

/-- The error of a truncated input. -/
def jsonEOF : Str := "unexpected end of JSON input".toList

/-- The error of a character the grammar does not allow where it stands. -/
def jsonInvalid : Str := "invalid character".toList

/-- The error of a value nested deeper than the decoder allows. -/
def jsonDepth : Str := "exceeded max depth".toList

/-- The error of a value whose type does not fit the field. -/
def jsonType : Str := "json: cannot unmarshal".toList

/-- JSON white space. -/
def isJSONSpace (c : Char) : Bool := c == ' ' || c == '\t' || c == '\r' || c == '\n'

/-- The input without leading white space. -/
def skipSpace (s : Str) : Str := s.dropWhile isJSONSpace

/-- A decimal digit. -/
def isDigit (c : Char) : Bool := decide ('0' ≤ c ∧ c ≤ '9')

/-- The value of a hexadecimal digit. -/
def hexDigit (c : Char) : Option Nat :=
  if '0' ≤ c ∧ c ≤ '9' then some (c.toNat - 48)
  else if 'a' ≤ c ∧ c ≤ 'f' then some (c.toNat - 87)
  else if 'A' ≤ c ∧ c ≤ 'F' then some (c.toNat - 55)
  else none

/-- A piece of a string literal: a character, or a `\uXXXX` escape. -/
inductive StrUnit
  | char (c : Char)
  | esc (n : Nat)

/-- The character of a one-letter escape. -/
def simpleEscape (c : Char) : Option Char :=
  if c = '"' then some '"' else if c = '\\' then some '\\' else if c = '/' then some '/'
  else if c = 'b' then some '\x08' else if c = 'f' then some '\x0c'
  else if c = 'n' then some '\n' else if c = 'r' then some '\r'
  else if c = 't' then some '\t' else none

/-- The four hexadecimal digits of a `\u` escape. -/
def scanHex4 (s : Str) : Except Str (Nat × Str) :=
  match s with
  | a :: b :: c :: d :: rest =>
    match hexDigit a, hexDigit b, hexDigit c, hexDigit d with
    | some x, some y, some z, some w => .ok (((x * 16 + y) * 16 + z) * 16 + w, rest)
    | _, _, _, _ => .error jsonInvalid
  | _ => if s.all (fun c => (hexDigit c).isSome) then .error jsonEOF else .error jsonInvalid

/-- A string literal after its opening quote, within `fuel` steps: its pieces
and the input after the closing quote. -/
def scanString : Nat → Str → Except Str (List StrUnit × Str)
  | 0, _ => .error jsonEOF
  | _ + 1, [] => .error jsonEOF
  | fuel + 1, c :: rest =>
    if c = '"' then .ok ([], rest)
    else if c = '\\' then
      match rest with
      | [] => .error jsonEOF
      | e :: rest1 =>
        if e = 'u' then
          match scanHex4 rest1 with
          | .error err => .error err
          | .ok (n, rest2) =>
            match scanString fuel rest2 with
            | .error err => .error err
            | .ok (us, r) => .ok (.esc n :: us, r)
        else
          match simpleEscape e with
          | none => .error jsonInvalid
          | some ch =>
            match scanString fuel rest1 with
            | .error err => .error err
            | .ok (us, r) => .ok (.char ch :: us, r)
    else if c.toNat < 0x20 then .error jsonInvalid
    else
      match scanString fuel rest with
      | .error err => .error err
      | .ok (us, r) => .ok (.char c :: us, r)

/-- A UTF-16 surrogate code unit. -/
def isSurrogate (n : Nat) : Bool := decide (0xD800 ≤ n ∧ n < 0xE000)

/-- The character of a single `\u` escape: U+FFFD for a surrogate. -/
def unitChar (n : Nat) : Char := if isSurrogate n then Char.ofNat 0xFFFD else Char.ofNat n

/-- The text of a string literal, with `pending` the value of a `\u` escape
read but not yet written: two `\u` escapes that form a surrogate pair give one
character. -/
def decodeFrom : Option Nat → List StrUnit → Str
  | none, [] => []
  | some hi, [] => [unitChar hi]
  | none, .char c :: rest => c :: decodeFrom none rest
  | some hi, .char c :: rest => unitChar hi :: c :: decodeFrom none rest
  | none, .esc n :: rest => decodeFrom (some n) rest
  | some hi, .esc lo :: rest =>
    if decide (0xD800 ≤ hi ∧ hi < 0xDC00) && decide (0xDC00 ≤ lo ∧ lo < 0xE000) then
      Char.ofNat (0x10000 + (hi - 0xD800) * 0x400 + (lo - 0xDC00)) :: decodeFrom none rest
    else unitChar hi :: decodeFrom (some lo) rest

/-- The text of a string literal. -/
def decodeUnits (us : List StrUnit) : Str := decodeFrom none us

/-- The exponent of a number, if there is one. -/
def scanExponent (acc s : Str) : Except Str (Str × Str) :=
  match s with
  | e :: rest =>
    if e = 'e' ∨ e = 'E' then
      let sign := match rest with
        | c :: _ => if c = '+' ∨ c = '-' then [c] else []
        | [] => []
      let rest1 := rest.drop sign.length
      let ds := rest1.takeWhile isDigit
      if ds = [] then (if rest1 = [] then .error jsonEOF else .error jsonInvalid)
      else .ok (acc ++ e :: sign ++ ds, rest1.dropWhile isDigit)
    else .ok (acc, s)
  | [] => .ok (acc, s)

/-- The fraction and exponent of a number after its integer part `acc`. -/
def scanFraction (acc s : Str) : Except Str (Str × Str) :=
  match s with
  | '.' :: rest =>
    let ds := rest.takeWhile isDigit
    if ds = [] then (if rest = [] then .error jsonEOF else .error jsonInvalid)
    else scanExponent (acc ++ '.' :: ds) (rest.dropWhile isDigit)
  | _ => scanExponent acc s

/-- A number: its text and the input after it. -/
def scanNumber (s : Str) : Except Str (Str × Str) :=
  let sign := match s with
    | '-' :: _ => ['-']
    | _ => []
  match s.drop sign.length with
  | [] => .error jsonEOF
  | c :: rest =>
    if c = '0' then scanFraction (sign ++ ['0']) rest
    else if isDigit c then
      scanFraction (sign ++ (c :: rest).takeWhile isDigit) ((c :: rest).dropWhile isDigit)
    else .error jsonInvalid

/-- One of the literals `true`, `false`, `null`. -/
def scanLiteral (lit : Str) (v : JSON) (s : Str) : Except Str (JSON × Str) :=
  if lit.isPrefixOf s then .ok (v, s.drop lit.length)
  else if s.isPrefixOf lit then .error jsonEOF
  else .error jsonInvalid

/-- The elements of an array after the first has been found to exist, with
`pv` the parser of a value. -/
def parseElements (pv : Str → Except Str (JSON × Str)) :
    Nat → Str → Except Str (List JSON × Str)
  | 0, _ => .error jsonEOF
  | n + 1, s =>
    match pv s with
    | .error err => .error err
    | .ok (v, rest) =>
      match skipSpace rest with
      | [] => .error jsonEOF
      | c :: rest1 =>
        if c = ',' then
          match parseElements pv n rest1 with
          | .error err => .error err
          | .ok (vs, r) => .ok (v :: vs, r)
        else if c = ']' then .ok ([v], rest1)
        else .error jsonInvalid

/-- The members of an object after the first has been found to exist. -/
def parseMembers (pv : Str → Except Str (JSON × Str)) :
    Nat → Str → Except Str (List (Str × JSON × Str) × Str)
  | 0, _ => .error jsonEOF
  | n + 1, s =>
    match skipSpace s with
    | [] => .error jsonEOF
    | q :: rest =>
      if q ≠ '"' then .error jsonInvalid
      else
        match scanString rest.length rest with
        | .error err => .error err
        | .ok (us, rest1) =>
          match skipSpace rest1 with
          | [] => .error jsonEOF
          | colon :: rest2 =>
            if colon ≠ ':' then .error jsonInvalid
            else
              match pv (skipSpace rest2) with
              | .error err => .error err
              | .ok (v, rest3) =>
                let raw := (skipSpace rest2).take ((skipSpace rest2).length - rest3.length)
                match skipSpace rest3 with
                | [] => .error jsonEOF
                | c :: rest4 =>
                  if c = ',' then
                    match parseMembers pv n rest4 with
                    | .error err => .error err
                    | .ok (ms, r) => .ok ((decodeUnits us, v, raw) :: ms, r)
                  else if c = '}' then .ok ([(decodeUnits us, v, raw)], rest4)
                  else .error jsonInvalid

/-- A JSON value that may open `depth` more levels of brackets, and the input
after it. -/
def parseValue : Nat → Str → Except Str (JSON × Str)
  | 0, _ => .error jsonDepth
  | depth + 1, s =>
    match skipSpace s with
    | [] => .error jsonEOF
    | c :: rest =>
      if (c = '{' ∨ c = '[') ∧ depth = 0 then .error jsonDepth
      else if c = '{' then
        match skipSpace rest with
        | [] => .error jsonEOF
        | c1 :: rest1 =>
          if c1 = '}' then .ok (.object [], rest1)
          else
            match parseMembers (parseValue depth) rest.length rest with
            | .error err => .error err
            | .ok (ms, r) => .ok (.object ms, r)
      else if c = '[' then
        match skipSpace rest with
        | [] => .error jsonEOF
        | c1 :: rest1 =>
          if c1 = ']' then .ok (.array [], rest1)
          else
            match parseElements (parseValue depth) rest.length rest with
            | .error err => .error err
            | .ok (vs, r) => .ok (.array vs, r)
      else if c = '"' then
        match scanString rest.length rest with
        | .error err => .error err
        | .ok (us, r) => .ok (.string (decodeUnits us), r)
      else if c = '-' ∨ isDigit c = true then
        match scanNumber (c :: rest) with
        | .error err => .error err
        | .ok (raw, r) => .ok (.number raw, r)
      else if c = 't' then scanLiteral "true".toList (.bool true) (c :: rest)
      else if c = 'f' then scanLiteral "false".toList (.bool false) (c :: rest)
      else if c = 'n' then scanLiteral "null".toList .null (c :: rest)
      else .error jsonInvalid

/-- The most levels of brackets the decoder lets a value open. -/
def maxNestingDepth : Nat := 10000

/-- The whole input as one JSON value. A value cannot open more brackets than
the input has characters, so the smaller of the two bounds is the budget. -/
def parseJSON (data : Str) : Except Str JSON :=
  match parseValue (min (data.length + 1) (maxNestingDepth + 1)) data with
  | .error err => .error err
  | .ok (v, rest) => if skipSpace rest = [] then .ok v else .error jsonInvalid

/-- Case folding of a character of a key, as far as ASCII field names go:
letters to upper case, and the two characters that fold to `S` and `K`. -/
def foldRune (c : Char) : Char :=
  if 'a' ≤ c ∧ c ≤ 'z' then Char.ofNat (c.toNat - 32)
  else if c.toNat = 0x17F then 'S'
  else if c.toNat = 0x212A then 'K'
  else c

/-- A key names the field `field`. -/
def keyIs (field key : Str) : Bool := key.map foldRune == field.map foldRune

/-- A value decoded into a string field that holds `cur`. -/
def decodeStr (cur : Str) : JSON → Except Str Str
  | .null => .ok cur
  | .string s => .ok s
  | _ => .error jsonType

/-- The members of an object decoded into a `ToolResponse`, one by one. -/
def decodeToolMembers (t : ToolResponse) : List (Str × JSON × Str) → Except Str ToolResponse
  | [] => .ok t
  | (k, v, raw) :: rest =>
    if keyIs "name".toList k then
      match decodeStr t.name v with
      | .error err => .error err
      | .ok n => decodeToolMembers { t with name := n } rest
    else if keyIs "description".toList k then
      match decodeStr t.description v with
      | .error err => .error err
      | .ok d => decodeToolMembers { t with description := d } rest
    else if keyIs "inputSchema".toList k then
      decodeToolMembers { t with inputSchema := raw } rest
    else decodeToolMembers t rest

/-- A value decoded into a `ToolResponse` that holds `cur`. -/
def decodeToolValue (cur : ToolResponse) : JSON → Except Str ToolResponse
  | .null => .ok cur
  | .object ms => decodeToolMembers cur ms
  | _ => .error jsonType

/-- The elements of an array decoded into tool records: each into the record
that `cur` holds at its place, or into a zero record where `cur` has ended. -/
def decodeToolList : List ToolResponse → List JSON → Except Str (List ToolResponse)
  | _, [] => .ok []
  | cur, v :: vs =>
    match decodeToolValue (cur.headD ⟨[], [], []⟩) v with
    | .error err => .error err
    | .ok t =>
      match decodeToolList cur.tail vs with
      | .error err => .error err
      | .ok ts => .ok (t :: ts)

/-- A value decoded into the field `Tools` that holds `cur`: `null` empties the
list, an array gives a list of its own length. -/
def decodeTools (cur : List ToolResponse) : JSON → Except Str (List ToolResponse)
  | .null => .ok []
  | .array vs => decodeToolList cur vs
  | _ => .error jsonType

/-- The members of an object decoded into the field `Result`. -/
def decodeResultMembers (r : Result) : List (Str × JSON × Str) → Except Str Result
  | [] => .ok r
  | (k, v, _) :: rest =>
    if keyIs "tools".toList k then
      match decodeTools r.tools v with
      | .error err => .error err
      | .ok ts => decodeResultMembers { r with tools := ts } rest
    else decodeResultMembers r rest

/-- A value decoded into the field `Result` that holds `r`. -/
def decodeResult (r : Result) : JSON → Except Str Result
  | .null => .ok r
  | .object ms => decodeResultMembers r ms
  | _ => .error jsonType

/-- The members of the top-level object decoded into a `Response`. -/
def decodeResponseMembers (resp : Response) : List (Str × JSON × Str) → Except Str Response
  | [] => .ok resp
  | (k, v, _) :: rest =>
    if keyIs "result".toList k then
      match decodeResult resp.result v with
      | .error err => .error err
      | .ok r => decodeResponseMembers { resp with result := r } rest
    else decodeResponseMembers resp rest

/-- The decoder `json.Unmarshal` into a zero `Response`. -/
def jsonUnmarshal (data : Str) : Except Str Response :=
  match parseJSON data with
  | .error err => .error err
  | .ok .null => .ok ⟨⟨[]⟩⟩
  | .ok (.object ms) => decodeResponseMembers ⟨⟨[]⟩⟩ ms
  | .ok _ => .error jsonType

/-! ## Notions the properties are stated with -/

/-- A stream written as a sequence of newline-terminated lines. -/
def encodeLines : List Str → Str
  | [] => []
  | l :: ls => l ++ '\n' :: encodeLines ls

/-- The loop of `processSSEStream` over lines already split, with a live
context: what `sseLoop` does on `encodeLines lines`. -/
def sseLines : SSEState → List Str → List Str
  | _, [] => []
  | st, l :: ls => (sseLine st (l ++ ['\n'])).2 ++ sseLines (sseLine st (l ++ ['\n'])).1 ls

/-- The function `strings.Join`. -/
def Join : List Str → Str → Str
  | [], _ => []
  | [a], _ => a
  | a :: b :: rest, sep => a ++ sep ++ Join (b :: rest) sep

/-- A blank line: nothing is left of it after trimming. -/
def isBlankLine (l : Str) : Bool := decide (TrimSpace l = [])

/-- A `data:` line: its trimmed text starts with `data:`. -/
def isDataLine (l : Str) : Bool := HasPrefix (TrimSpace l) ['d', 'a', 't', 'a', ':']

/-- The payload of a `data:` line: the trimmed remainder after `data:`. -/
def payload (l : Str) : Str := TrimSpace (TrimPrefix (TrimSpace l) ['d', 'a', 't', 'a', ':'])

/-- The blank-line-terminated blocks of a sequence of lines, in order: each is
the run of non-blank lines before a blank line. Lines after the last blank line
belong to no block. -/
def blocks : List Str → List (List Str)
  | [] => []
  | l :: ls =>
    if isBlankLine l then [] :: blocks ls
    else match blocks ls with
      | [] => []
      | b :: bs => (l :: b) :: bs

/-- The payloads of the `data:` lines of a block, in arrival order. -/
def payloads (b : List Str) : List Str := (b.filter isDataLine).map payload

/-- The messages the specification gives for a stream of lines, in its own
words: one message per blank-line-terminated block that has a `data:` line, the
trimmed payloads of the block joined with a newline. -/
def specMessages (lines : List Str) : List Str :=
  ((blocks lines).filter (fun b => !(payloads b).isEmpty)).map (fun b => Join (payloads b) ['\n'])

/-- What one `data:` payload does to a buffer filled by earlier `data:` lines:
the separator is written only when the buffer is not empty. -/
def addData (buf data : Str) : Str := if buf = [] then data else buf ++ '\n' :: data

/-- The message a finished block produces, if any. -/
def blockMessage (b : List Str) : Option Str :=
  if (payloads b).foldl addData [] = [] then none else some ((payloads b).foldl addData [])

/-- The messages of a list of blocks when the buffer already holds `buf`. -/
def blockMessages (buf : Str) : List (List Str) → List Str
  | [] => []
  | b :: bs =>
    (if (payloads b).foldl addData buf = [] then [] else [(payloads b).foldl addData buf])
      ++ bs.filterMap blockMessage

/-- A block that makes the reader emit: one of its payloads is non-empty. -/
def hasData (b : List Str) : Bool := (payloads b).any (fun p => !p.isEmpty)

/-- The message `m` fits the block `b`: it is not empty, and it is the payloads
of `b` joined with a newline whenever the first payload of `b` is non-empty. -/
def MessageOfBlock (b : List Str) (m : Str) : Prop :=
  m ≠ [] ∧ ∀ p ps, payloads b = p :: ps → p ≠ [] → m = Join (payloads b) ['\n']

/-- The pattern `/messages[^\s]+` matches the text `full` at position `i` of
`message`. -/
def MatchAt (message : Str) (i : Nat) (full : Str) : Prop :=
  ∃ run post, full = messagesLit ++ run ∧ run ≠ [] ∧ (∀ c ∈ run, isReSpace c = false) ∧
    message.drop i = full ++ post

/-- A stream of seven lines: two blocks with data, the second with an empty
payload only, and a last line with no blank line after it. -/
def sampleLines : List Str :=
  ["data: a".toList, "data: b".toList, [], ": c".toList, "data:".toList, [], "data: x".toList]

/-- A server as `serverEnv` with endpoint `messages?id=42` from the third read
on, whose second POST fails with `connection refused`. -/
def refusingEnv : FetchEnv :=
  { serverEnv (fun n => if n < 2 then [] else "messages?id=42".toList)
      (fun _ => .tools "r".toList) with
    httpDo := fun n _ => if n = 1 then some "connection refused".toList else none }

/-- A server as `refusingEnv` whose third POST, the one of `ListTools`, is the
one that fails. -/
def lastRefusedEnv : FetchEnv :=
  { serverEnv (fun n => if n < 2 then [] else "messages?id=42".toList)
      (fun _ => .tools "r".toList) with
    httpDo := fun n _ => if n = 2 then some "connection refused".toList else none }

/-- A server whose session event gives the endpoint `messages%zz`, with a URL
parser that rejects a URL holding the escape `%zz`. -/
def rejectingEnv : FetchEnv :=
  { serverEnv (fun _ => "messages%zz".toList) (fun _ => .tools "r".toList) with
    newRequest := fun url =>
      if Contains url "%zz".toList then some "invalid URL escape \"%zz\"".toList else none }

/-- The tool a record is turned into. -/
def toolOf (t : ToolResponse) : Tool :=
  { name := t.name, description := if t.description = [] then noDescription else t.description }

/-- The envelope of the specification's example. -/
def exampleEnvelope : Str :=
  ("\x7b\"result\":\x7b\"tools\":[\x7b\"name\":\"a\"\x7d," ++
   "\x7b\"name\":\"b\",\"description\":\"d\"\x7d]\x7d\x7d").toList

/-- An envelope with no tools. -/
def emptyEnvelope : Str := "\x7b\"result\":\x7b\"tools\":[]\x7d\x7d".toList

/-- An envelope whose first record has no name and whose second has the empty
string as its name. -/
def namelessEnvelope : Str :=
  ("\x7b\"result\":\x7b\"tools\":[\x7b\"description\":\"d\"\x7d," ++
   "\x7b\"name\":\"\"\x7d]\x7d\x7d").toList

/-! # Properties -/

/-! ### Lemmas on the library functions -/

theorem ReadString_line (l rest : Str) (h : '\n' ∉ l) :
    ReadString (l ++ '\n' :: rest) = some (l ++ ['\n'], rest) := by
  induction l with
  | nil => simp [ReadString]
  | cons c cs ih =>
    have hc : c ≠ '\n' := fun e => h (by simp [e])
    have hcs : '\n' ∉ cs := fun e => h (by simp [e])
    simp [ReadString, hc, ih hcs]

theorem ReadString_none (t : Str) (h : '\n' ∉ t) : ReadString t = none := by
  induction t with
  | nil => rfl
  | cons c cs ih =>
    have hc : c ≠ '\n' := fun e => h (by simp [e])
    have hcs : '\n' ∉ cs := fun e => h (by simp [e])
    simp [ReadString, hc, ih hcs]

theorem dropWhile_snoc_space (s : Str) (c : Char) (hc : isSpace c = true) :
    ((s ++ [c]).reverse.dropWhile isSpace) = s.reverse.dropWhile isSpace := by
  simp [List.dropWhile_cons, hc]

theorem TrimSpace_snoc_space (s : Str) (c : Char) (hc : isSpace c = true) :
    TrimSpace (s ++ [c]) = TrimSpace s := by
  unfold TrimSpace
  rw [List.dropWhile_append]
  by_cases h : (List.dropWhile isSpace s).isEmpty = true
  · have h2 : List.dropWhile isSpace s = [] := by simpa using h
    simp [h2, List.dropWhile_cons, hc]
  · simp only [h]
    exact congrArg List.reverse (dropWhile_snoc_space _ _ hc)

theorem TrimSpace_head (c : Char) (s : Str) (hc : isSpace c = false) :
    ∃ t, TrimSpace (c :: s) = c :: t := by
  unfold TrimSpace
  have h1 : List.dropWhile isSpace (c :: s) = c :: s := by simp [List.dropWhile_cons, hc]
  rw [h1, List.reverse_cons, List.dropWhile_append]
  by_cases h : (List.dropWhile isSpace s.reverse).isEmpty = true
  · exact ⟨[], by simp [h, List.dropWhile_cons, hc]⟩
  · exact ⟨(List.dropWhile isSpace s.reverse).reverse, by simp [h]⟩

/-! ### The reader loop, line by line -/

theorem sseLine_newline (st : SSEState) (l : Str) : sseLine st (l ++ ['\n']) = sseLine st l := by
  unfold sseLine
  rw [TrimSpace_snoc_space l '\n' (by decide)]

theorem length_le_encodeLines (lines : List Str) : lines.length ≤ (encodeLines lines).length := by
  induction lines with
  | nil => simp
  | cons l ls ih => simp only [encodeLines, List.length_cons, List.length_append]; omega

theorem sseLoop_lines (lines : List Str) (hl : ∀ l ∈ lines, '\n' ∉ l) (tail : Str)
    (ht : '\n' ∉ tail) : ∀ fuel i st, lines.length < fuel →
      sseLoop ctxLive fuel i st (encodeLines lines ++ tail) = sseLines st lines := by
  induction lines with
  | nil =>
    intro fuel i st hf
    cases fuel with
    | zero => omega
    | succ n => simp [sseLoop, ctxLive, encodeLines, sseLines, ReadString_none tail ht]
  | cons l ls ih =>
    intro fuel i st hf
    cases fuel with
    | zero => omega
    | succ n =>
      have hl1 : '\n' ∉ l := hl l (by simp)
      have hls : ∀ x ∈ ls, '\n' ∉ x := fun x hx => hl x (by simp [hx])
      have hn : ls.length < n := by simpa using hf
      have hrd : ReadString (encodeLines (l :: ls) ++ tail)
          = some (l ++ ['\n'], encodeLines ls ++ tail) := by
        simpa [encodeLines] using ReadString_line l (encodeLines ls ++ tail) hl1
      simp only [sseLoop, ctxLive, hrd, sseLines, ih hls n (i + 1) _ hn]
      simp

theorem processSSEStream_lines (lines : List Str) (hl : ∀ l ∈ lines, '\n' ∉ l) (tail : Str)
    (ht : '\n' ∉ tail) :
    processSSEStream ctxLive (encodeLines lines ++ tail) = sseLines SSEState.init lines := by
  unfold processSSEStream
  apply sseLoop_lines lines hl tail ht
  have := length_le_encodeLines lines
  simp only [List.length_append]
  omega

theorem blockMessages_cons (buf : Str) (b : List Str) (bs : List (List Str)) :
    blockMessages buf (b :: bs) =
      (if (payloads b).foldl addData buf = [] then [] else [(payloads b).foldl addData buf])
        ++ bs.filterMap blockMessage := rfl

theorem blockMessages_nil (bl : List (List Str)) :
    blockMessages [] bl = bl.filterMap blockMessage := by
  cases bl with
  | nil => rfl
  | cons b bs =>
    by_cases h : (payloads b).foldl addData [] = [] <;>
      simp [blockMessages, blockMessage, List.filterMap_cons, h]

theorem not_data_of_comment (t : Str) (h : HasPrefix t [':'] = true) :
    HasPrefix t ['d', 'a', 't', 'a', ':'] = false := by
  cases t with
  | nil => simp [HasPrefix] at h
  | cons c cs =>
    simp only [HasPrefix, List.isPrefixOf, Bool.and_eq_true, beq_iff_eq] at h
    simp [HasPrefix, List.isPrefixOf, ← h.1]

theorem sseLine_eq (st : SSEState) (l : Str) (hinv : st.dataBuffer ≠ [] → st.inMessage = true) :
    sseLine st l =
      if isBlankLine l then
        (if st.dataBuffer = [] then st else ⟨[], false⟩,
          if st.dataBuffer = [] then [] else [st.dataBuffer])
      else if isDataLine l then (⟨addData st.dataBuffer (payload l), true⟩, [])
      else (st, []) := by
  unfold sseLine isBlankLine isDataLine payload addData
  by_cases hb : TrimSpace l = []
  · by_cases he : st.dataBuffer = []
    · simp [hb, he]
    · have h1 := hinv he
      have h2 : 0 < st.dataBuffer.length := List.length_pos.mpr he
      simp [hb, he, h1, h2]
  · by_cases hc : HasPrefix (TrimSpace l) [':'] = true
    · simp [hb, hc, not_data_of_comment _ hc]
    · by_cases hd : HasPrefix (TrimSpace l) ['d', 'a', 't', 'a', ':'] = true
      · by_cases he : st.dataBuffer = []
        · simp [hb, hc, hd, he]
        · have h1 := hinv he
          have h2 : 0 < st.dataBuffer.length := List.length_pos.mpr he
          simp [hb, hc, hd, he, h1, h2]
      · simp [hb, hc, hd]

theorem sseLines_blocks (lines : List Str) : ∀ st : SSEState,
    (st.dataBuffer ≠ [] → st.inMessage = true) →
      sseLines st lines = blockMessages st.dataBuffer (blocks lines) := by
  induction lines with
  | nil => intro st _; rfl
  | cons l ls ih =>
    intro st hinv
    simp only [sseLines, sseLine_newline, sseLine_eq st l hinv, blocks]
    by_cases hb : isBlankLine l = true
    · by_cases he : st.dataBuffer = []
      · simp only [hb, he, if_true]
        rw [ih st hinv, he, blockMessages_nil (blocks ls)]
        simp [blockMessages_cons, payloads]
      · simp only [hb, he, if_true, if_false]
        rw [ih ⟨[], false⟩ (by simp), blockMessages_nil (blocks ls)]
        simp [blockMessages_cons, payloads, he]
    · by_cases hd : isDataLine l = true
      · simp only [hb, hd, if_true, if_false, List.nil_append, Bool.false_eq_true]
        rw [ih ⟨addData st.dataBuffer (payload l), true⟩ (by simp)]
        cases blocks ls with
        | nil => rfl
        | cons b bs => simp [blockMessages, payloads, List.filter_cons, hd]
      · simp only [hb, hd, if_false, List.nil_append, Bool.false_eq_true]
        rw [ih st hinv]
        cases blocks ls with
        | nil => rfl
        | cons b bs => simp [blockMessages, payloads, List.filter_cons, hd]

/-- The reader on a stream of whole lines, followed by an unterminated rest:
one message per block whose buffer ends non-empty. -/
theorem processSSEStream_blocks (lines : List Str) (hl : ∀ l ∈ lines, '\n' ∉ l) (tail : Str)
    (ht : '\n' ∉ tail) :
    processSSEStream ctxLive (encodeLines lines ++ tail) = (blocks lines).filterMap blockMessage := by
  rw [processSSEStream_lines lines hl tail ht, sseLines_blocks _ _ (by simp [SSEState.init])]
  exact blockMessages_nil _

/-! ### The buffer of a block and `strings.Join` -/

theorem Join_cons_append (a b : Str) (ps : List Str) (sep : Str) :
    Join ((a ++ b) :: ps) sep = a ++ Join (b :: ps) sep := by
  cases ps <;> simp [Join]

theorem Join_ne_nil (x : Str) (ps : List Str) (sep : Str) (hx : x ≠ []) :
    Join (x :: ps) sep ≠ [] := by
  cases ps <;> simp [Join, hx]

theorem foldl_addData_ne (ps : List Str) : ∀ x : Str, x ≠ [] →
    ps.foldl addData x = Join (x :: ps) ['\n'] := by
  induction ps with
  | nil => intro x _; rfl
  | cons p ps ih =>
    intro x hx
    have hstep : addData x p = x ++ '\n' :: p := by simp [addData, hx]
    rw [List.foldl_cons, hstep, ih _ (by simp), Join_cons_append,
      show '\n' :: p = ['\n'] ++ p from rfl, Join_cons_append]
    simp [Join]

theorem foldl_addData_nil (ps : List Str) :
    ps.foldl addData [] = Join (ps.dropWhile (fun p => p.isEmpty)) ['\n'] := by
  induction ps with
  | nil => rfl
  | cons p ps ih =>
    by_cases hp : p = []
    · subst hp
      simpa [addData, List.dropWhile_cons] using ih
    · have hstep : addData [] p = p := by simp [addData]
      have hne : p.isEmpty = false := by simpa using hp
      rw [List.foldl_cons, hstep, foldl_addData_ne ps p hp]
      simp [List.dropWhile_cons, hne]

theorem foldl_addData_eq_nil_iff (ps : List Str) :
    ps.foldl addData [] = [] ↔ ∀ p ∈ ps, p = [] := by
  induction ps with
  | nil => simp
  | cons p ps ih =>
    by_cases hp : p = []
    · subst hp
      simpa [addData] using ih
    · have hstep : addData [] p = p := by simp [addData]
      rw [List.foldl_cons, hstep, foldl_addData_ne ps p hp]
      constructor
      · intro h; exact absurd h (Join_ne_nil p ps _ hp)
      · intro h; exact absurd (h p (by simp)) hp

theorem blockMessage_eq_none_iff (b : List Str) :
    blockMessage b = none ↔ (payloads b).any (fun p => !p.isEmpty) = false := by
  unfold blockMessage
  by_cases h : (payloads b).foldl addData [] = []
  · have h2 := (foldl_addData_eq_nil_iff _).mp h
    simp only [h, if_true, true_iff]
    rw [List.any_eq_false]
    intro p hp
    simp [h2 p hp]
  · simp only [h, if_false]
    constructor
    · intro hn; cases hn
    intro hany
    apply absurd _ h
    rw [foldl_addData_eq_nil_iff]
    intro p hp
    rw [List.any_eq_false] at hany
    simpa using hany p hp

theorem blockMessage_eq_some (b : List Str) (m : Str) (h : blockMessage b = some m) :
    m ≠ [] ∧ ∀ p ps, payloads b = p :: ps → p ≠ [] → m = Join (payloads b) ['\n'] := by
  unfold blockMessage at h
  by_cases h0 : (payloads b).foldl addData [] = []
  · simp [h0] at h
  · simp only [h0, if_false, Option.some.injEq] at h
    refine ⟨h ▸ h0, ?_⟩
    intro p ps hps hp
    rw [← h, hps, List.foldl_cons, show addData [] p = p by simp [addData]]
    exact foldl_addData_ne ps p hp

theorem forall₂_filter_filterMap {α β : Type} (R : α → β → Prop) (keep : α → Bool)
    (f : α → Option β) (hnone : ∀ x, f x = none ↔ keep x = false)
    (hsome : ∀ x y, f x = some y → R x y) (l : List α) :
    List.Forall₂ R (l.filter keep) (l.filterMap f) := by
  induction l with
  | nil => exact List.Forall₂.nil
  | cons x xs ih =>
    cases hfx : f x with
    | none =>
      have hk : keep x = false := (hnone x).mp hfx
      simpa [List.filter_cons, List.filterMap_cons, hfx, hk] using ih
    | some y =>
      have hk : keep x = true := by
        cases hkx : keep x with
        | true => rfl
        | false => rw [(hnone x).mpr hkx] at hfx; cases hfx
      simpa [List.filter_cons, List.filterMap_cons, hfx, hk] using
        List.Forall₂.cons (hsome x y hfx) ih

theorem blocks_no_blank (rest : List Str) (h : ∀ l ∈ rest, isBlankLine l = false) :
    blocks rest = [] := by
  induction rest with
  | nil => rfl
  | cons l ls ih =>
    have hl : isBlankLine l = false := h l (by simp)
    have hls := ih (fun x hx => h x (by simp [hx]))
    simp [blocks, hl, hls]

theorem blocks_append_no_blank (lines rest : List Str) (h : ∀ l ∈ rest, isBlankLine l = false) :
    blocks (lines ++ rest) = blocks lines := by
  induction lines with
  | nil => simpa [blocks] using blocks_no_blank rest h
  | cons l ls ih => simp [blocks, ih]

/-! ### Comment lines -/

theorem sseLine_comment (st : SSEState) (cmt : Str) (h : HasPrefix cmt [':'] = true) :
    sseLine st cmt = (st, []) := by
  cases cmt with
  | nil => simp [HasPrefix] at h
  | cons c cs =>
    have hc : c = ':' := by
      simp only [HasPrefix, List.isPrefixOf, Bool.and_eq_true, beq_iff_eq] at h
      exact h.1.symm
    subst hc
    obtain ⟨t, ht⟩ := TrimSpace_head ':' cs (by decide)
    unfold sseLine
    simp [ht, HasPrefix, List.isPrefixOf]

theorem sseLines_insert_comment (pre post : List Str) (cmt : Str)
    (h : HasPrefix cmt [':'] = true) : ∀ st,
      sseLines st (pre ++ cmt :: post) = sseLines st (pre ++ post) := by
  induction pre with
  | nil =>
    intro st
    simp [sseLines, sseLine_newline, sseLine_comment st cmt h]
  | cons l ls ih =>
    intro st
    simp [sseLines, ih]

theorem encodeLines_append (xs ys : List Str) :
    encodeLines (xs ++ ys) = encodeLines xs ++ encodeLines ys := by
  induction xs with
  | nil => rfl
  | cons x xs ih => simp [encodeLines, ih]

theorem exists_lines (s : Str) : ∃ lines tail, s = encodeLines lines ++ tail ∧
    (∀ l ∈ lines, '\n' ∉ l) ∧ '\n' ∉ tail := by
  induction s with
  | nil => exact ⟨[], [], rfl, by simp, by simp⟩
  | cons c cs ih =>
    obtain ⟨lines, tail, hs, hl, ht⟩ := ih
    by_cases hc : c = '\n'
    · refine ⟨[] :: lines, tail, by simp [encodeLines, hs, hc], ?_, ht⟩
      intro l hmem
      rcases List.mem_cons.mp hmem with h | h
      · simp [h]
      · exact hl l h
    · cases lines with
      | nil =>
        refine ⟨[], c :: tail, by simp [encodeLines, hs], by simp, ?_⟩
        intro hmem
        rcases List.mem_cons.mp hmem with h | h
        · exact hc h.symm
        · exact ht h
      | cons l ls =>
        refine ⟨(c :: l) :: ls, tail, by simp [encodeLines, hs], ?_, ht⟩
        intro x hmem
        rcases List.mem_cons.mp hmem with h | h
        · subst h
          intro hx
          rcases List.mem_cons.mp hx with h1 | h1
          · exact hc h1.symm
          · exact hl l (by simp) h1
        · exact hl x (by simp [h])

theorem exists_lines_of_boundary (a : Str) (ha : a = [] ∨ ∃ a0, a = a0 ++ ['\n']) :
    ∃ lines, a = encodeLines lines ∧ ∀ l ∈ lines, '\n' ∉ l := by
  rcases ha with h | ⟨a0, h⟩
  · exact ⟨[], by simp [h, encodeLines], by simp⟩
  · obtain ⟨lines, tail, hs, hl, ht⟩ := exists_lines a0
    refine ⟨lines ++ [tail], by simp [h, hs, encodeLines_append, encodeLines], ?_⟩
    intro l hmem
    rcases List.mem_append.mp hmem with h1 | h1
    · exact hl l h1
    · simp at h1; subst h1; exact ht

/-! ### The endpoint pattern -/

theorem matchMessagesAt_complete (s full : Str) (h : MatchAt s 0 full) :
    ∃ m, matchMessagesAt s = some m ∧ full.length ≤ m.1.length := by
  obtain ⟨run, post, hfull, hne, hall, hs⟩ := h
  have hs1 : s = messagesLit ++ (run ++ post) := by simpa [hfull] using hs
  have hpre : HasPrefix s messagesLit = true := by
    rw [hs1]; simp [HasPrefix]
  have hdrop : s.drop messagesLit.length = run ++ post := by
    rw [hs1]; exact List.drop_left _ _
  have htw : (run ++ post).takeWhile (fun c => !isReSpace c)
      = run ++ post.takeWhile (fun c => !isReSpace c) :=
    List.takeWhile_append_of_pos (by intro c hc; simp [hall c hc])
  have hrun : run ++ post.takeWhile (fun c => !isReSpace c) ≠ [] := by simp [hne]
  unfold matchMessagesAt
  simp only [hpre, if_true, hdrop, htw, hrun, if_false]
  exact ⟨_, rfl, by simp [hfull]⟩

theorem matchMessagesAt_sound (s : Str) (m : Str × Str) (h : matchMessagesAt s = some m) :
    m.1 = '/' :: m.2 ∧ MatchAt s 0 m.1 := by
  unfold matchMessagesAt at h
  by_cases hpre : HasPrefix s messagesLit = true
  · simp only [hpre, if_true] at h
    by_cases hrun : (List.drop messagesLit.length s).takeWhile (fun c => !isReSpace c) = []
    · simp [hrun] at h
    · simp only [hrun, if_false, Option.some.injEq] at h
      subst h
      refine ⟨rfl, _, (List.drop messagesLit.length s).dropWhile (fun c => !isReSpace c),
        rfl, hrun, ?_, ?_⟩
      · intro c hc
        simpa using List.mem_takeWhile_imp hc
      · have hsplit : messagesLit ++ s.drop messagesLit.length = s :=
          List.prefix_iff_eq_append.mp (by simpa [HasPrefix] using hpre)
        simp only [List.drop_zero, List.append_assoc, List.takeWhile_append_dropWhile]
        exact hsplit.symm
  · simp [hpre] at h

theorem matchAt_nil (i : Nat) (full : Str) : ¬ MatchAt [] i full := by
  rintro ⟨run, post, hfull, _, _, hs⟩
  simp [hfull, messagesLit] at hs

theorem matchAt_succ (c : Char) (cs : Str) (i : Nat) (full : Str) :
    MatchAt (c :: cs) (i + 1) full ↔ MatchAt cs i full := by
  simp [MatchAt]

/-- The result of `FindStringSubmatch` is the leftmost match, the longest one at
its position, and capture group 1 is the match without its first character. -/
theorem FindStringSubmatch_leftmost (message : Str) :
    (∃ i full, MatchAt message i full) →
      ∃ i m, FindStringSubmatch message = some m ∧ m.1 = '/' :: m.2 ∧
        MatchAt message i m.1 ∧ (∀ j f, j < i → ¬ MatchAt message j f) ∧
        ∀ f, MatchAt message i f → f.length ≤ m.1.length := by
  induction message with
  | nil =>
    rintro ⟨i, full, h⟩
    exact absurd h (matchAt_nil i full)
  | cons c cs ih =>
    rintro ⟨i, full, h⟩
    cases hm : matchMessagesAt (c :: cs) with
    | some m =>
      obtain ⟨h1, h2⟩ := matchMessagesAt_sound _ _ hm
      refine ⟨0, m, by simp [FindStringSubmatch, hm], h1, h2, ?_, ?_⟩
      · intro j f hj; omega
      · intro f hf
        obtain ⟨m1, hm1, hlen⟩ := matchMessagesAt_complete _ _ hf
        rw [hm] at hm1
        cases hm1
        exact hlen
    | none =>
      have h0 : ∀ f, ¬ MatchAt (c :: cs) 0 f := by
        intro f hf
        obtain ⟨m1, hm1, _⟩ := matchMessagesAt_complete _ _ hf
        rw [hm] at hm1
        cases hm1
      cases i with
      | zero => exact absurd h (h0 full)
      | succ i0 =>
        obtain ⟨i1, m, hfind, hslash, hmatch, hleft, hlong⟩ :=
          ih ⟨i0, full, (matchAt_succ c cs i0 full).mp h⟩
        refine ⟨i1 + 1, m, by simp [FindStringSubmatch, hm, hfind], hslash,
          (matchAt_succ c cs i1 m.1).mpr hmatch, ?_, ?_⟩
        · intro j f hj
          cases j with
          | zero => exact h0 f
          | succ j0 =>
            rw [matchAt_succ]
            exact hleft j0 f (by omega)
        · intro f hf
          exact hlong f ((matchAt_succ c cs i1 f).mp hf)

/-! ### The fetch orchestration -/

theorem awaitEndpoint_stalled (endpointAt : Nat → Str) (h : ∀ k, endpointAt k = []) :
    ∀ fuel k, awaitEndpoint endpointAt fuel k = none := by
  intro fuel
  induction fuel with
  | zero => intro k; rfl
  | succ n ih => intro k; simp [awaitEndpoint, h k, ih]

theorem FetchToolsResponse_sent_initial (env : FetchEnv) (client : Client) (fuel : Nat) :
    (FetchToolsResponse env client fuel).sent <+: [Handshake1, Handshake2, ListTools] := by
  have p0 : ([] : List Str) <+: [Handshake1, Handshake2, ListTools] := List.nil_prefix
  have p1 : [Handshake1] <+: [Handshake1, Handshake2, ListTools] :=
    ⟨[Handshake2, ListTools], rfl⟩
  have p2 : [Handshake1, Handshake2] <+: [Handshake1, Handshake2, ListTools] :=
    ⟨[ListTools], rfl⟩
  have p3 : [Handshake1, Handshake2, ListTools] <+: [Handshake1, Handshake2, ListTools] :=
    List.prefix_rfl
  unfold FetchToolsResponse
  repeat' split
  all_goals first | exact p0 | exact p1 | exact p2 | exact p3

/-- A send whose URL the parser rejects: `SendMessage` sets the header of the
nil request before it looks at the error, so with the endpoint `messages%zz`
the first send panics and `FetchToolsResponse` returns no error. -/
theorem FetchToolsResponse_rejected_url :
    rejectingEnv.newRequest
        (sendRequest { NewClient "http://h".toList with messagesEndpoint := "messages%zz".toList }
          Handshake1).url = some "invalid URL escape \"%zz\"".toList ∧
      InitiateConnection rejectingEnv (NewClient "http://h".toList) = none ∧
      (FetchToolsResponse rejectingEnv (NewClient "http://h".toList) 5).sent = [Handshake1] ∧
      (FetchToolsResponse rejectingEnv (NewClient "http://h".toList) 5).outcome = .panicked := by
  refine ⟨by decide, by decide, by rfl, by decide⟩

/-! ### The response parser -/

theorem foldl_append_singleton {α β : Type} (f : α → β) (l : List α) : ∀ acc : List β,
    l.foldl (fun ts t => ts ++ [f t]) acc = acc ++ l.map f := by
  induction l with
  | nil => intro acc; simp
  | cons x xs ih => intro acc; simp [List.foldl_cons, ih]

theorem ParseToolsResponse_eq_map (unmarshal : Str → Except Str Response) (raw : Str)
    (resp : Response) (h : unmarshal raw = .ok resp) :
    ParseToolsResponse unmarshal raw = .ok (resp.result.tools.map toolOf) := by
  unfold ParseToolsResponse
  rw [h]
  have := foldl_append_singleton toolOf resp.result.tools []
  simp only [toolOf, List.nil_append] at this
  simp only [this, toolOf]

/-! ### The client state -/

theorem Close_closed (c : Client) (h : c.closed = true) : c.Close = some (c, 0) := by
  simp [Client.Close, h]

theorem Close_twice (c c1 : Client) (k : Nat) (h : c.Close = some (c1, k)) :
    c1.Close = some (c1, 0) := by
  apply Close_closed
  unfold Client.Close at h
  by_cases hc : c.closed = true
  · simp only [hc, Bool.not_true, Bool.false_eq_true, if_false, Option.some.injEq,
      Prod.mk.injEq] at h
    rw [← h.1]; exact hc
  · cases hm : closeChan c.messages with
    | none => simp [hc, hm] at h
    | some m =>
      cases ht : closeChan c.toolsMessage with
      | none => simp [hc, hm, ht] at h
      | some t =>
        simp only [hc, hm, ht, Bool.not_eq_true, Bool.not_false, if_true, Option.some.injEq,
          Prod.mk.injEq] at h
        rw [← h.1]

theorem NewClient_consistent (baseURL : Str) : (NewClient baseURL).Consistent := by
  simp [Client.Consistent, NewClient]

theorem routerStep_consistent (c : Client) (message : Str) (h : c.Consistent) :
    (routerStep c message).1.Consistent := by
  unfold routerStep
  by_cases hs : Contains message sessionMarker = true <;> simpa [hs, Client.Consistent] using h

/-! # The claims -/

/-- C1 (amended): on a stream of newline-terminated lines, `processSSEStream`
emits exactly one message for each blank-line-terminated block that has a
`data:` line with a non-empty trimmed payload, in stream order; no emitted
message is empty; the message is the block's trimmed payloads joined with a
newline whenever the first payload of the block is non-empty; and lines after
the last blank line emit nothing. -/
theorem processSSEStream_block_messages (lines : List Str) (hl : ∀ l ∈ lines, '\n' ∉ l) :
    List.Forall₂ MessageOfBlock ((blocks lines).filter hasData)
        (processSSEStream ctxLive (encodeLines lines)) ∧
      ∀ rest : List Str, (∀ l ∈ rest, '\n' ∉ l) → (∀ l ∈ rest, isBlankLine l = false) →
        processSSEStream ctxLive (encodeLines (lines ++ rest))
          = processSSEStream ctxLive (encodeLines lines) := by
  have key : ∀ ls : List Str, (∀ l ∈ ls, '\n' ∉ l) →
      processSSEStream ctxLive (encodeLines ls) = (blocks ls).filterMap blockMessage := by
    intro ls hls
    simpa using processSSEStream_blocks ls hls [] (by simp)
  constructor
  · rw [key lines hl]
    apply forall₂_filter_filterMap
    · intro b
      simpa [hasData] using blockMessage_eq_none_iff b
    · intro b m hm
      exact blockMessage_eq_some b m hm
  · intro rest hr hnb
    have hall : ∀ l ∈ lines ++ rest, '\n' ∉ l := by
      intro l hmem
      rcases List.mem_append.mp hmem with h | h
      · exact hl l h
      · exact hr l h
    rw [key _ hall, key lines hl, blocks_append_no_blank lines rest hnb]

/-- C1, at a concrete stream: the seven lines of `sampleLines`. -/
theorem processSSEStream_block_messages_witness :
    (∀ l ∈ sampleLines, '\n' ∉ l) ∧
      (List.Forall₂ MessageOfBlock ((blocks sampleLines).filter hasData)
          (processSSEStream ctxLive (encodeLines sampleLines)) ∧
        ∀ rest : List Str, (∀ l ∈ rest, '\n' ∉ l) → (∀ l ∈ rest, isBlankLine l = false) →
          processSSEStream ctxLive (encodeLines (sampleLines ++ rest))
            = processSSEStream ctxLive (encodeLines sampleLines)) :=
  ⟨by decide, processSSEStream_block_messages sampleLines (by decide)⟩

/-- C1 as stated fails: the stream `data:` followed by a blank line is one block
with a `data:` line, for which the specification gives one (empty) message, and
the reader emits nothing. -/
theorem processSSEStream_empty_payload :
    blocks ["data:".toList, []] = [["data:".toList]] ∧
      payloads ["data:".toList] = [[]] ∧
      specMessages ["data:".toList, []] = [[]] ∧
      processSSEStream ctxLive (encodeLines ["data:".toList, []]) = [] := by
  decide

/-- C10: inserting a line that begins with `:` at a line boundary of a stream
(the text before it is empty or ends with a newline) leaves the messages that
`processSSEStream` emits unchanged. -/
theorem processSSEStream_insert_comment (a b cmt : Str)
    (ha : a = [] ∨ ∃ a0, a = a0 ++ ['\n']) (hcmt : HasPrefix cmt [':'] = true)
    (hnl : '\n' ∉ cmt) :
    processSSEStream ctxLive (a ++ (cmt ++ ['\n']) ++ b) = processSSEStream ctxLive (a ++ b) := by
  obtain ⟨pre, hpre, hprel⟩ := exists_lines_of_boundary a ha
  obtain ⟨post, tail, hpost, hpostl, htail⟩ := exists_lines b
  have hins : a ++ (cmt ++ ['\n']) ++ b = encodeLines (pre ++ cmt :: post) ++ tail := by
    simp [hpre, hpost, encodeLines_append, encodeLines]
  have hplain : a ++ b = encodeLines (pre ++ post) ++ tail := by
    simp [hpre, hpost, encodeLines_append]
  have hall1 : ∀ l ∈ pre ++ cmt :: post, '\n' ∉ l := by
    intro l hmem
    rcases List.mem_append.mp hmem with h | h
    · exact hprel l h
    · rcases List.mem_cons.mp h with h1 | h1
      · rw [h1]; exact hnl
      · exact hpostl l h1
  have hall2 : ∀ l ∈ pre ++ post, '\n' ∉ l := by
    intro l hmem
    rcases List.mem_append.mp hmem with h | h
    · exact hprel l h
    · exact hpostl l h
  rw [hins, hplain, processSSEStream_lines _ hall1 tail htail,
    processSSEStream_lines _ hall2 tail htail]
  exact sseLines_insert_comment pre post cmt hcmt _

/-- C10, at a concrete stream: a comment between two `data:` lines of a block. -/
theorem processSSEStream_insert_comment_witness :
    ("data: a\n".toList = [] ∨ ∃ a0, "data: a\n".toList = a0 ++ ['\n']) ∧
      HasPrefix ": ping".toList [':'] = true ∧ '\n' ∉ ": ping".toList ∧
      processSSEStream ctxLive ("data: a\n".toList ++ (": ping".toList ++ ['\n'])
          ++ "data: b\n\n".toList)
        = processSSEStream ctxLive ("data: a\n".toList ++ "data: b\n\n".toList) :=
  ⟨Or.inr ⟨"data: a".toList, by decide⟩, by decide, by decide,
    processSSEStream_insert_comment _ _ _ (Or.inr ⟨"data: a".toList, by decide⟩)
      (by decide) (by decide)⟩

/-- C9: on a client state whose channels are closed exactly when its `closed`
flag is set, `Close` returns with the flag set and both channels closed, and a
second `Close` returns the same state, closes no channel and does not panic. -/
theorem Close_idempotent (c : Client) (hc : c.Consistent) :
    ∃ c1 k, c.Close = some (c1, k) ∧ c1.closed = true ∧ c1.messages = .closed ∧
      c1.toolsMessage = .closed ∧ c1.Close = some (c1, 0) ∧ c1.Consistent := by
  obtain ⟨h1, h2⟩ := hc
  by_cases hcl : c.closed = true
  · refine ⟨c, 0, Close_closed c hcl, hcl, h1.mp hcl, h2.mp hcl, Close_closed c hcl, h1, h2⟩
  · have hm : c.messages = .active := by
      cases hx : c.messages with
      | active => rfl
      | closed => exact absurd (h1.mpr hx) hcl
    have ht : c.toolsMessage = .active := by
      cases hx : c.toolsMessage with
      | active => rfl
      | closed => exact absurd (h2.mpr hx) hcl
    refine ⟨{ c with messages := .closed, toolsMessage := .closed, closed := true }, 2,
      ?_, rfl, rfl, rfl, ?_, ?_⟩
    · simp [Client.Close, hcl, hm, ht, closeChan]
    · simp [Client.Close]
    · simp [Client.Consistent]

/-- C9, at a concrete state: a new client. -/
theorem Close_idempotent_witness :
    (NewClient "http://localhost:8080".toList).Consistent ∧
      ∃ c1 k, (NewClient "http://localhost:8080".toList).Close = some (c1, k) ∧
        c1.closed = true ∧ c1.messages = .closed ∧ c1.toolsMessage = .closed ∧
        c1.Close = some (c1, 0) ∧ c1.Consistent :=
  ⟨NewClient_consistent _, Close_idempotent _ (NewClient_consistent _)⟩

/-- C4 (amended): for every client state and every message that contains
`session`, the router step stores `parseMessagesEndpoint message` as the
endpoint, whatever the endpoint was; a message without `session` leaves it as it
is; so the endpoint is unchanged exactly when the message has no marker or
parses to the value already stored. -/
theorem routerStep_endpoint (c : Client) (message : Str) :
    (routerStep c message).1.messagesEndpoint
        = (if Contains message sessionMarker then parseMessagesEndpoint message
           else c.messagesEndpoint) ∧
      ((routerStep c message).1.messagesEndpoint = c.messagesEndpoint ↔
        (Contains message sessionMarker = false ∨
          parseMessagesEndpoint message = c.messagesEndpoint)) ∧
      (routerStep c message).1.baseURL = c.baseURL ∧
      (routerStep c message).1.closed = c.closed := by
  unfold routerStep
  by_cases hs : Contains message sessionMarker = true <;> simp [hs]

/-- C4 as stated fails: with the endpoint set to `messages?id=1`, a second
message with the marker `session` replaces it, and one with the marker and no
path resets it to the empty string. -/
theorem routerStep_overwrites :
    (routerStep (NewClient "http://h".toList) "session /messages?id=1".toList).1.messagesEndpoint
        = "messages?id=1".toList ∧
      Contains "session /messages?id=2".toList sessionMarker = true ∧
      (routerStep (routerStep (NewClient "http://h".toList) "session /messages?id=1".toList).1
          "session /messages?id=2".toList).1.messagesEndpoint = "messages?id=2".toList ∧
      Contains "session closed".toList sessionMarker = true ∧
      (routerStep (routerStep (NewClient "http://h".toList) "session /messages?id=1".toList).1
          "session closed".toList).1.messagesEndpoint = [] := by
  decide

/-- C3 (amended): when the pattern `/messages[^\s]+` matches in a message,
`parseMessagesEndpoint` returns the leftmost match (the longest at its
position) without its leading `/`; for a message that contains `session` the
router stores that value as the endpoint, and `SendMessage` posts to the base
URL followed by `/` and the endpoint, that is by the whole match. -/
theorem parseMessagesEndpoint_leftmost (message : Str)
    (h : ∃ i full, MatchAt message i full) :
    ∃ i full, MatchAt message i full ∧ (∀ j f, j < i → ¬ MatchAt message j f) ∧
      (∀ f, MatchAt message i f → f.length ≤ full.length) ∧
      full = '/' :: parseMessagesEndpoint message ∧
      ∀ (c : Client) (payload : Str), Contains message sessionMarker = true →
        (routerStep c message).1.messagesEndpoint = parseMessagesEndpoint message ∧
        (sendRequest (routerStep c message).1 payload).url = c.baseURL ++ full := by
  obtain ⟨i, m, hfind, hslash, hmatch, hleft, hlong⟩ := FindStringSubmatch_leftmost message h
  have hparse : parseMessagesEndpoint message = m.2 := by
    simp [parseMessagesEndpoint, hfind]
  refine ⟨i, m.1, hmatch, hleft, hlong, by rw [hparse]; exact hslash, ?_⟩
  intro c payload hs
  simp [routerStep, sendRequest, hs, hparse, hslash]

/-- C3, at a concrete message: the session event of the end-to-end scenario. -/
theorem parseMessagesEndpoint_leftmost_witness :
    (∃ i full, MatchAt "event: session /messages?id=42 ok".toList i full) ∧
      ∃ i full, MatchAt "event: session /messages?id=42 ok".toList i full ∧
        (∀ j f, j < i → ¬ MatchAt "event: session /messages?id=42 ok".toList j f) ∧
        (∀ f, MatchAt "event: session /messages?id=42 ok".toList i f →
          f.length ≤ full.length) ∧
        full = '/' :: parseMessagesEndpoint "event: session /messages?id=42 ok".toList ∧
        ∀ (c : Client) (payload : Str),
          Contains "event: session /messages?id=42 ok".toList sessionMarker = true →
          (routerStep c "event: session /messages?id=42 ok".toList).1.messagesEndpoint
              = parseMessagesEndpoint "event: session /messages?id=42 ok".toList ∧
            (sendRequest (routerStep c "event: session /messages?id=42 ok".toList).1 payload).url
              = c.baseURL ++ full :=
  ⟨⟨15, "/messages?id=42".toList, "?id=42".toList, " ok".toList, by decide, by decide,
      by decide, by decide⟩,
    parseMessagesEndpoint_leftmost _
      ⟨15, "/messages?id=42".toList, "?id=42".toList, " ok".toList, by decide, by decide,
        by decide, by decide⟩⟩

/-- C3 as stated fails: on a message with the match `/messages?id=42` the
function returns `messages?id=42`, capture group 1, which has no leading `/`. -/
theorem parseMessagesEndpoint_drops_slash :
    FindStringSubmatch "event: session /messages?id=42".toList
        = some ("/messages?id=42".toList, "messages?id=42".toList) ∧
      parseMessagesEndpoint "event: session /messages?id=42".toList = "messages?id=42".toList ∧
      parseMessagesEndpoint "event: session /messages?id=42".toList ≠ "/messages?id=42".toList := by
  decide

/-- C5 (amended): once the polling has found the endpoint, the payloads passed
to `SendMessage` are a prefix of `Handshake1, Handshake2, ListTools`; when a
call of `SendMessage` returns an error, nothing is sent after it and
`FetchToolsResponse` returns the empty response with an error that names the
step; all three payloads are passed exactly when both handshake sends returned
nil (the send of `ListTools` may then still fail); and when all three sends
return nil the function goes on to wait for the tools message. -/
theorem FetchToolsResponse_sends (env : FetchEnv) (client : Client) (fuel k : Nat)
    (hconn : InitiateConnection env client = none) (herr : env.errorAtCheck = none)
    (hk : awaitEndpoint env.endpointAt fuel 0 = some k) :
    (FetchToolsResponse env client fuel).sent <+: [Handshake1, Handshake2, ListTools] ∧
      (∀ e, sendAt env client k 0 Handshake1 = .err e →
        FetchToolsResponse env client fuel =
          ⟨[Handshake1], .returned [] (some ("failed to send handshake1: ".toList ++ e))⟩) ∧
      (∀ e, sendAt env client k 0 Handshake1 = .ok →
        sendAt env client k 1 Handshake2 = .err e →
        FetchToolsResponse env client fuel =
          ⟨[Handshake1, Handshake2],
            .returned [] (some ("failed to send handshake2: ".toList ++ e))⟩) ∧
      (∀ e, sendAt env client k 0 Handshake1 = .ok →
        sendAt env client k 1 Handshake2 = .ok →
        sendAt env client k 2 ListTools = .err e →
        FetchToolsResponse env client fuel =
          ⟨[Handshake1, Handshake2, ListTools],
            .returned [] (some ("failed to send list_tools: ".toList ++ e))⟩) ∧
      ((FetchToolsResponse env client fuel).sent = [Handshake1, Handshake2, ListTools] ↔
        (sendAt env client k 0 Handshake1 = .ok ∧ sendAt env client k 1 Handshake2 = .ok)) ∧
      (sendAt env client k 0 Handshake1 = .ok → sendAt env client k 1 Handshake2 = .ok →
        sendAt env client k 2 ListTools = .ok →
        FetchToolsResponse env client fuel =
          ⟨[Handshake1, Handshake2, ListTools], awaitTools env.waitEvent fuel 0⟩) := by
  refine ⟨FetchToolsResponse_sent_initial env client fuel, ?_, ?_, ?_, ?_, ?_⟩
  · intro e h0
    simp [FetchToolsResponse, hconn, herr, hk, h0]
  · intro e h0 h1
    simp [FetchToolsResponse, hconn, herr, hk, h0, h1]
  · intro e h0 h1 h2
    simp [FetchToolsResponse, hconn, herr, hk, h0, h1, h2]
  · unfold FetchToolsResponse
    simp only [hconn, herr, hk]
    cases h0 : sendAt env client k 0 Handshake1 with
    | panicked => simp
    | err e => simp
    | ok =>
      cases h1 : sendAt env client k 1 Handshake2 with
      | panicked => simp
      | err e => simp
      | ok => cases h2 : sendAt env client k 2 ListTools <;> simp
  · intro h0 h1 h2
    simp [FetchToolsResponse, hconn, herr, hk, h0, h1, h2]

/-- C5, at a concrete run: the endpoint is found at the third read and the
second POST is refused. -/
theorem FetchToolsResponse_sends_witness :
    InitiateConnection refusingEnv (NewClient "http://h".toList) = none ∧
      refusingEnv.errorAtCheck = none ∧
      awaitEndpoint refusingEnv.endpointAt 5 0 = some 2 ∧
      sendAt refusingEnv (NewClient "http://h".toList) 2 0 Handshake1 = .ok ∧
      sendAt refusingEnv (NewClient "http://h".toList) 2 1 Handshake2
        = .err "failed to send request: connection refused".toList ∧
      FetchToolsResponse refusingEnv (NewClient "http://h".toList) 5 =
        ⟨[Handshake1, Handshake2],
          .returned [] (some ("failed to send handshake2: ".toList ++
            "failed to send request: connection refused".toList))⟩ :=
  ⟨by decide, by decide, by decide, by decide, by decide,
    (FetchToolsResponse_sends refusingEnv (NewClient "http://h".toList) 5 2 (by decide)
      (by decide) (by decide)).2.2.1 _ (by decide) (by decide)⟩

/-- C5 as stated fails: when the first two sends succeed and the third is
refused, all three payloads have been passed to `SendMessage` although a send
failed, and `FetchToolsResponse` returns the error of the step `list_tools`. -/
theorem FetchToolsResponse_third_send_fails :
    sendAt lastRefusedEnv (NewClient "http://h".toList) 2 0 Handshake1 = .ok ∧
      sendAt lastRefusedEnv (NewClient "http://h".toList) 2 1 Handshake2 = .ok ∧
      sendAt lastRefusedEnv (NewClient "http://h".toList) 2 2 ListTools
        = .err "failed to send request: connection refused".toList ∧
      (FetchToolsResponse lastRefusedEnv (NewClient "http://h".toList) 5).sent
        = [Handshake1, Handshake2, ListTools] ∧
      (FetchToolsResponse lastRefusedEnv (NewClient "http://h".toList) 5).outcome
        = .returned [] (some
            "failed to send list_tools: failed to send request: connection refused".toList) := by
  refine ⟨by decide, by decide, by decide, by rfl, by decide⟩

/-- C6 (the code does not do this): with the stream open, no error seen at the
one check after the router is started, and the endpoint never discovered,
`FetchToolsResponse` has not returned after any number of passes of its polling
loop, although the context is done; it sends nothing and returns no
deadline-exceeded error. -/
theorem FetchToolsResponse_polls_forever (fuel : Nat) :
    InitiateConnection silentEnv (NewClient "http://localhost:8080".toList) = none ∧
      silentEnv.waitEvent 0 = .ctxDone "context deadline exceeded".toList ∧
      FetchToolsResponse silentEnv (NewClient "http://localhost:8080".toList) fuel
        = ⟨[], .running⟩ := by
  refine ⟨by decide, rfl, ?_⟩
  have hconn : InitiateConnection silentEnv (NewClient "http://localhost:8080".toList) = none := by
    decide
  have herr : silentEnv.errorAtCheck = none := rfl
  have hstall := awaitEndpoint_stalled silentEnv.endpointAt (fun _ => rfl) fuel 0
  unfold FetchToolsResponse
  simp only [hconn, herr, hstall]

/-- C2: for every input the decoder accepts, `ParseToolsResponse` returns no
error and one tool per record of `result.tools`, in the same order, each with
the record's name and with the record's description, or `No description
provided` when that is empty (as it is when the input leaves it out); the
envelope of the example gives `(a, No description provided), (b, d)` and an
envelope with no tools gives the empty list. -/
theorem ParseToolsResponse_ok (unmarshal : Str → Except Str Response) (raw : Str)
    (resp : Response) (h : unmarshal raw = .ok resp) :
    ∃ tools, ParseToolsResponse unmarshal raw = .ok tools ∧
      tools.length = resp.result.tools.length ∧
      (∀ i (h1 : i < tools.length) (h2 : i < resp.result.tools.length),
        tools[i].name = resp.result.tools[i].name ∧
        tools[i].description =
          if resp.result.tools[i].description = [] then noDescription
          else resp.result.tools[i].description) ∧
      ParseToolsResponse jsonUnmarshal exampleEnvelope
        = .ok [⟨"a".toList, "No description provided".toList⟩, ⟨"b".toList, "d".toList⟩] ∧
      ParseToolsResponse jsonUnmarshal emptyEnvelope = .ok [] := by
  refine ⟨_, ParseToolsResponse_eq_map unmarshal raw resp h, by simp, ?_, by rfl, by rfl⟩
  intro i h1 h2
  simp [toolOf]

/-- C2, at a concrete input: the example envelope under the JSON decoder. -/
theorem ParseToolsResponse_ok_witness :
    jsonUnmarshal exampleEnvelope
        = .ok ⟨⟨[⟨"a".toList, [], []⟩, ⟨"b".toList, "d".toList, []⟩]⟩⟩ ∧
      ∃ tools, ParseToolsResponse jsonUnmarshal exampleEnvelope = .ok tools ∧
        tools.length = 2 :=
  ⟨by rfl,
    (ParseToolsResponse_ok jsonUnmarshal exampleEnvelope
      ⟨⟨[⟨"a".toList, [], []⟩, ⟨"b".toList, "d".toList, []⟩]⟩⟩ (by rfl)).elim
      (fun tools ht => ⟨tools, ht.1, ht.2.1⟩)⟩

/-- C7: when the decoder rejects the input, `ParseToolsResponse` returns no
tool list and an error made of `failed to parse tools response: ` and the
decoder's error; the JSON decoder rejects the empty string and every input that
is not one JSON value. -/
theorem ParseToolsResponse_decode_error (unmarshal : Str → Except Str Response)
    (raw cause : Str) (h : unmarshal raw = .error cause) :
    ParseToolsResponse unmarshal raw
        = .error ("failed to parse tools response: ".toList ++ cause) ∧
      ParseToolsResponse jsonUnmarshal []
        = .error ("failed to parse tools response: ".toList ++
            "unexpected end of JSON input".toList) ∧
      ∀ input e, parseJSON input = .error e →
        ParseToolsResponse jsonUnmarshal input
          = .error ("failed to parse tools response: ".toList ++ e) := by
  refine ⟨by simp [ParseToolsResponse, h], by rfl, ?_⟩
  intro input e he
  simp [ParseToolsResponse, jsonUnmarshal, he]

/-- C7, at a concrete input: text that is not JSON. -/
theorem ParseToolsResponse_decode_error_witness :
    jsonUnmarshal "not json".toList = .error "invalid character".toList ∧
      ParseToolsResponse jsonUnmarshal "not json".toList
        = .error ("failed to parse tools response: ".toList ++ "invalid character".toList) :=
  ⟨by rfl,
    (ParseToolsResponse_decode_error jsonUnmarshal "not json".toList
      "invalid character".toList (by rfl)).1⟩

/-- C8 (amended): for every input the decoder accepts, the names of the
returned tools are the names of the records, in order, so the returned tools
all have a non-empty name exactly when all records have one; a record without a
name, or with the empty string as its name, gives a tool with an empty name. -/
theorem ParseToolsResponse_names (unmarshal : Str → Except Str Response) (raw : Str)
    (resp : Response) (h : unmarshal raw = .ok resp) :
    ∃ tools, ParseToolsResponse unmarshal raw = .ok tools ∧
      tools.map (fun t => t.name) = resp.result.tools.map (fun r => r.name) ∧
      ((∀ t ∈ tools, t.name ≠ []) ↔ (∀ r ∈ resp.result.tools, r.name ≠ [])) := by
  refine ⟨_, ParseToolsResponse_eq_map unmarshal raw resp h, ?_, ?_⟩
  · simp [toolOf, Function.comp_def]
  · simp [toolOf]

/-- C8, at a concrete input: the envelope with two nameless records. -/
theorem ParseToolsResponse_names_witness :
    jsonUnmarshal namelessEnvelope = .ok ⟨⟨[⟨[], "d".toList, []⟩, ⟨[], [], []⟩]⟩⟩ ∧
      ∃ tools, ParseToolsResponse jsonUnmarshal namelessEnvelope = .ok tools ∧
        tools.map (fun t => t.name) = [[], []] :=
  ⟨by rfl,
    (ParseToolsResponse_names jsonUnmarshal namelessEnvelope
      ⟨⟨[⟨[], "d".toList, []⟩, ⟨[], [], []⟩]⟩⟩ (by rfl)).elim
      (fun tools ht => ⟨tools, ht.1, ht.2.1⟩)⟩

/-- C8 as stated fails: an envelope whose records omit `name` or give it as the
empty string is parsed without error into tools with an empty name. -/
theorem ParseToolsResponse_empty_name :
    ParseToolsResponse jsonUnmarshal namelessEnvelope
      = .ok [⟨[], "d".toList⟩, ⟨[], "No description provided".toList⟩] := by
  rfl

end Listtools
